import Mathlib

/-!
Verification of the ledger reconciliation and classification engine of the
Outstanding-Payment-Console repository (src/services/csvProcessor.ts and the
session mutation handlers of src/App.tsx).

Modelling conventions:
* JS `number` arithmetic is modelled over `ℚ` (exact rationals).  The
  `round` helper is translated literally, including the `Number.EPSILON`
  fudge term the source adds before rounding.
* `parseDate` delegates to the host `new Date(...)` constructor, so the
  date parser is abstracted as a parameter `pd : String → Int` (epoch
  milliseconds, `0` meaning "unparsable") wherever the code calls it.
  Likewise `getFilterTimestamp`'s `new Date(y, m-1, d).getTime()` is
  abstracted as `dc : String → Int`.
* JS objects used as string maps (the prefix table) are modelled as
  association lists in insertion order, which matches `for … in` iteration
  order and the first-hit-wins search of `getCompanyNameFromBillNo`.
* `Array.prototype.sort` with the comparator of `finalizeParty` is modelled
  by `List.insertionSort` over the corresponding total order; because the
  comparator's tie-breaker `_originalIdx` is unique, every comparison sort
  produces this same unique ordering.
-/

namespace OPC

/-- JS `Number.EPSILON` = 2^(-52), used by the source's `round`. -/
def eps : ℚ := 1 / 4503599627370496

/-- Function `round` from csvProcessor.ts:187:
`Math.round((num + Number.EPSILON) * 100) / 100`, where JS `Math.round x`
is `⌊x + 1/2⌋` (halves round towards +∞). -/
def round (num : ℚ) : ℚ := (⌊(num + eps) * 100 + 1/2⌋ : ℚ) / 100

/-- A rational that is an exact multiple of 0.01 (an exact two-decimal
currency value, on which `round` is the identity). -/
def TwoDec (q : ℚ) : Prop := ∃ k : ℤ, q = (k : ℚ) / 100

/-- JS `Math.abs`, written so that kernel evaluation reduces. -/
def absQ (q : ℚ) : ℚ := if q < 0 then -q else q

/-- Session-level bill status (`BillDetail['status']`); the field is
optional in TS, `none` models `undefined`. -/
inductive BillStatus | paid | dispute | unpaid
deriving DecidableEq

/-- Structure `BillDetail` from types.ts. -/
structure BillDetail where
  billNo : String
  billDate : String
  billAmt : ℚ
  originalBillAmt : ℚ
  dueDate : String
  days : Int
  status : Option BillStatus := none
  manualAdjustment : Option ℚ := none
deriving DecidableEq

/-- Structure `ProcessedParty` from types.ts. -/
structure ProcessedParty where
  id : String
  partyName : String
  rawBalance : ℚ
  balanceDebit : ℚ
  balanceCredit : ℚ
  phoneNumber : String
  bills : List BillDetail
deriving DecidableEq

/-- Sum of `billAmt` (the JS `reduce((sum, b) => sum + b.billAmt, 0)`,
which over exact rationals equals the list sum). -/
def sumAmt (l : List BillDetail) : ℚ := (l.map BillDetail.billAmt).sum

/-- Sum of `Math.abs(billAmt)` over a list of bills. -/
def sumAbsAmt (l : List BillDetail) : ℚ := (l.map (fun b => absQ b.billAmt)).sum

/-- Index-tagging `(b, idx) => ({ ...b, _originalIdx: idx })` of
`finalizeParty` (generic over the element type). -/
def attachIdxFrom {α : Type} : ℕ → List α → List (ℕ × α)
  | _, [] => []
  | n, b :: rest => (n, b) :: attachIdxFrom (n + 1) rest

/-- The total order implemented by the comparator of `finalizeParty`:
ascending parsed date, ties broken by the original index. -/
def billLE (pd : String → Int) (a b : ℕ × BillDetail) : Prop :=
  pd a.2.billDate < pd b.2.billDate ∨ (pd a.2.billDate = pd b.2.billDate ∧ a.1 ≤ b.1)

instance billLE.decRel (pd : String → Int) : DecidableRel (billLE pd) := fun a b => by
  unfold billLE; exact inferInstance

/-- The sorted positive bills of `finalizeParty`: tag with original index,
keep `billAmt > 0`, sort by the comparator, drop the tags. -/
def sortedPositives (pd : String → Int) (bills : List BillDetail) : List BillDetail :=
  (List.insertionSort (billLE pd)
    ((attachIdxFrom 0 bills).filter (fun ib => decide (0 < ib.2.billAmt)))).map Prod.snd

/-- The credit-absorption loop of `finalizeParty` (csvProcessor.ts:252-265):
returns the surviving bills and the final `availableCredit`. -/
def fifoWalk (credit : ℚ) : List BillDetail → List BillDetail × ℚ
  | [] => ([], credit)
  | bill :: rest =>
    if 0 < credit then
      if bill.billAmt ≤ credit then
        fifoWalk (round (credit - bill.billAmt)) rest
      else
        let out := fifoWalk 0 rest
        ({ bill with billAmt := round (bill.billAmt - credit) } :: out.1, out.2)
    else
      let out := fifoWalk credit rest
      (bill :: out.1, out.2)

/-- Function `finalizeParty` from csvProcessor.ts:235-271 (written as a pure
function returning the updated party). -/
def finalizeParty (pd : String → Int) (party : ProcessedParty) : ProcessedParty :=
  let negativeBills := party.bills.filter (fun b => decide (b.billAmt < 0))
  let availableCredit := round (sumAbsAmt negativeBills)
  let walked := fifoWalk availableCredit (sortedPositives pd party.bills)
  let debit := round (sumAmt walked.1)
  { party with
    bills := walked.1
    balanceDebit := debit
    balanceCredit := walked.2
    rawBalance := round (debit - walked.2) }

/-- Modelled from the spec (§4.4 step 4): the FIFO settlement walk in the
spec's own phrasing — while the pool is positive, a bill whose amount the
pool covers disappears; a partially covered bill is retained with its
amount reduced by the remaining pool and the pool is emptied; once the
pool reaches zero, the remaining bills pass through unchanged.  Per §4.1
every persisted currency value is rounded to two decimals. -/
def specWalk (pool : ℚ) : List BillDetail → List BillDetail × ℚ
  | [] => ([], pool)
  | b :: rest =>
    if 0 < pool then
      if b.billAmt ≤ pool then specWalk (round (pool - b.billAmt)) rest
      else ({ b with billAmt := round (b.billAmt - pool) } :: rest, 0)
    else (b :: rest, pool)

/-- Modelled from the spec (§4.4): sort the positive bills FIFO, pool the
negative magnitudes, walk, and derive the three balances. -/
def specFinalizeParty (pd : String → Int) (party : ProcessedParty) : ProcessedParty :=
  let pool := round (sumAbsAmt (party.bills.filter (fun b => decide (b.billAmt < 0))))
  let walked := specWalk pool (sortedPositives pd party.bills)
  let balanceDebit := round (sumAmt walked.1)
  let balanceCredit := walked.2
  { party with
    bills := walked.1
    balanceDebit := balanceDebit
    balanceCredit := balanceCredit
    rawBalance := round (balanceDebit - balanceCredit) }

/-- The constant date parser used to instantiate the abstract
`parseDate` in concrete counterexamples and witnesses. -/
def pdZero : String → Int := fun _ => 0

def billPosTiny : BillDetail :=
  { billNo := "X1", billDate := "", billAmt := 1/250, originalBillAmt := 1/250,
    dueDate := "", days := 0 }

def billNegTen : BillDetail :=
  { billNo := "", billDate := "", billAmt := -10, originalBillAmt := -10,
    dueDate := "", days := 0 }

def partyC2 : ProcessedParty :=
  { id := "p0", partyName := "Acme", rawBalance := 0, balanceDebit := 0,
    balanceCredit := 0, phoneNumber := "", bills := [billPosTiny, billNegTen] }

/-- A party with exact two-decimal amounts, for the conservation
witness. -/
def partyC2w : ProcessedParty := { partyC2 with bills := [billNegTen] }

/-- Concrete party for the idempotence witness: two positive bills with
distinct parsed dates and one zero bill. -/
def pdLen : String → Int := fun s => Int.ofNat s.length

def partyC3 : ProcessedParty :=
  { id := "p3", partyName := "Idem", rawBalance := 0, balanceDebit := 0,
    balanceCredit := 0, phoneNumber := "",
    bills := [{ billNo := "B2", billDate := "xx", billAmt := 7, originalBillAmt := 7,
                dueDate := "", days := 0 },
              { billNo := "B1", billDate := "x", billAmt := 3, originalBillAmt := 3,
                dueDate := "", days := 0 },
              { billNo := "B0", billDate := "", billAmt := 0, originalBillAmt := 0,
                dueDate := "", days := 0 }] }

/-! ### JS string primitives, modelled on `List Char` so that kernel
evaluation works.  JS strings are treated as their character sequences;
`toUpperCase`/`toLowerCase` agree with `Char.toUpper`/`Char.toLower` on
the ASCII data these functions process. -/

/-- JS `String.prototype.trim`. -/
def trimList (l : List Char) : List Char :=
  ((l.dropWhile Char.isWhitespace).reverse.dropWhile Char.isWhitespace).reverse

def trimJS (s : String) : String := String.mk (trimList s.data)

/-- JS `String.prototype.toUpperCase`. -/
def upperJS (s : String) : String := String.mk (s.data.map Char.toUpper)

/-- JS `String.prototype.toLowerCase`. -/
def lowerJS (s : String) : String := String.mk (s.data.map Char.toLower)

/-- Does the second list start with the first? -/
def leadsWith : List Char → List Char → Bool
  | [], _ => true
  | _ :: _, [] => false
  | a :: pa, b :: sb => a == b && leadsWith pa sb

/-- JS `String.prototype.startsWith`. -/
def startsWithJS (s pat : String) : Bool := leadsWith pat.data s.data

/-- JS `String.prototype.endsWith`. -/
def endsWithJS (s pat : String) : Bool := leadsWith pat.data.reverse s.data.reverse

def hasSubList (pat : List Char) : List Char → Bool
  | [] => pat.isEmpty
  | c :: rest => leadsWith pat (c :: rest) || hasSubList pat rest

/-- Case-insensitive substring test: JS `/pat/i.test(s)` for a literal
lowercase pattern. -/
def containsCI (s pat : String) : Bool := hasSubList pat.data (lowerJS s).data

/-- The character class kept by `cleanCurrency`'s
`replace(/[^0-9.\x2d()]/g, '')`. -/
def isMoneyChar (c : Char) : Bool := c.isDigit || c == '.' || c == '-' || c == '(' || c == ')'

def digitsToNat (l : List Char) : ℕ := l.foldl (fun n c => 10 * n + (c.toNat - 48)) 0

def fracToQ (l : List Char) : ℚ := l.foldr (fun c q => (((c.toNat - 48 : ℕ) : ℚ) + q) / 10) 0

/-- JS `parseFloat`, restricted to the character set `cleanCurrency` can
feed it (digits, `.`, `-`, parentheses — no exponents or whitespace):
the longest valid leading decimal literal, `none` for `NaN`. -/
def parseFloatJS (s : String) : Option ℚ :=
  let step : Bool × List Char :=
    match s.data with
    | '-' :: rest => (true, rest)
    | '+' :: rest => (false, rest)
    | l => (false, l)
  let intPart := step.2.takeWhile Char.isDigit
  let afterInt := step.2.drop intPart.length
  let mag : Option ℚ :=
    match afterInt with
    | '.' :: rest =>
      let fracPart := rest.takeWhile Char.isDigit
      if intPart.isEmpty && fracPart.isEmpty then none
      else some ((digitsToNat intPart : ℚ) + fracToQ fracPart)
    | _ => if intPart.isEmpty then none else some ((digitsToNat intPart : ℚ))
  mag.map (fun q => if step.1 then -q else q)

/-- Function `cleanCurrency` from csvProcessor.ts:189-211 (string-cell path; the
numeric-cell shortcut does not arise for parsed CSV rows). -/
def cleanCurrency (val : String) : ℚ :=
  if val = "" then 0
  else
    let str := trimJS val
    if str = "" then 0
    else
      let cleanStr0 := String.mk (str.data.filter isMoneyChar)
      let isParens := startsWithJS cleanStr0 "(" && endsWithJS cleanStr0 ")"
      let cleanStr := if isParens
        then String.mk (cleanStr0.data.filter (fun c => !(c == '(' || c == ')')))
        else cleanStr0
      match parseFloatJS cleanStr with
      | none => 0
      | some num =>
        let finalNum := absQ num
        if containsCI str "cr" then -finalNum
        else if containsCI str "dr" then finalNum
        else if isParens then -finalNum
        else if str.data.contains '-' then -finalNum
        else if num < 0 then -finalNum
        else finalNum

/-- JS `parseInt` (radix 10) on the day strings fed by the grouper. -/
def parseIntJS (s : String) : Option ℤ :=
  match (trimJS s).data with
  | '-' :: rest =>
    let ds := rest.takeWhile Char.isDigit
    if ds.isEmpty then none else some (-(digitsToNat ds : ℤ))
  | '+' :: rest =>
    let ds := rest.takeWhile Char.isDigit
    if ds.isEmpty then none else some ((digitsToNat ds : ℤ))
  | l =>
    let ds := l.takeWhile Char.isDigit
    if ds.isEmpty then none else some ((digitsToNat ds : ℤ))

/-- A raw row as produced by the CSV reader; absent cells default to the
empty string (`row[k] || ""`). -/
structure RawCsvRow where
  partyName : String := ""
  billNo : String := ""
  billDate : String := ""
  billAmt : String := ""
  received : String := ""
  balance : String := ""
  dueDate : String := ""
  days : String := ""
deriving DecidableEq

/-- The `Days` cell: `parseInt(String(row["Days"] || "0").replace(/,/g, '')) || 0`. -/
def daysField (s : String) : Int :=
  (parseIntJS (String.mk ((if s = "" then "0" else s).data.filter (fun c => !(c == ','))))).getD 0

/-- One step of the row grouper of `processRawData`
(csvProcessor.ts:276-312), acting on the state
(emitted parties, open party accumulator). -/
def processRow (pd : String → Int) (now : String)
    (st : List ProcessedParty × Option ProcessedParty) (ir : ℕ × RawCsvRow) :
    List ProcessedParty × Option ProcessedParty :=
  let row := ir.2
  let partyName := trimJS row.partyName
  let billNo := trimJS row.billNo
  if partyName ≠ "" then
    let parties := match st.2 with
      | some p => st.1 ++ [finalizeParty pd p]
      | none => st.1
    (parties, some
      { id := "party-" ++ toString ir.1 ++ "-" ++ now
        partyName := partyName
        rawBalance := cleanCurrency (if row.balance = "" then "0" else row.balance)
        balanceDebit := 0
        balanceCredit := 0
        phoneNumber := ""
        bills := [] })
  else
    match st.2 with
    | none => st
    | some p =>
      let rawBillAmt := cleanCurrency row.billAmt
      let receivedAmt := cleanCurrency row.received
      let billAmt := if 0 < absQ receivedAmt then round (rawBillAmt - receivedAmt) else rawBillAmt
      let billDate := trimJS row.billDate
      if absQ billAmt ≠ 0 ∨ billNo ≠ "" ∨ billDate ≠ "" then
        (st.1, some { p with bills := p.bills ++
          [{ billNo := billNo
             billDate := billDate
             billAmt := billAmt
             originalBillAmt := rawBillAmt
             dueDate := row.dueDate
             days := daysField row.days }] })
      else st

/-- Function `processRawData` from csvProcessor.ts:273-318.  `now` abstracts the
`Date.now()` timestamp baked into party ids. -/
def processRawData (pd : String → Int) (now : String) (rows : List RawCsvRow) :
    List ProcessedParty :=
  let st := (attachIdxFrom 0 rows).foldl (processRow pd now) ([], none)
  match st.2 with
  | some p => st.1 ++ [finalizeParty pd p]
  | none => st.1

/-- Every bill of every party satisfies `billAmt ≤ originalBillAmt`. -/
def partiesRespectOriginal (ps : List ProcessedParty) : Prop :=
  ∀ p ∈ ps, ∀ b ∈ p.bills, b.billAmt ≤ b.originalBillAmt

/-- A row whose parsed amounts are exact two-decimal values with a
nonnegative `Received` cell. -/
def rowAmountsExact (r : RawCsvRow) : Prop :=
  TwoDec (cleanCurrency r.billAmt) ∧ TwoDec (cleanCurrency r.received)
    ∧ 0 ≤ cleanCurrency r.received

/-- Grouper invariant: all emitted parties and the open accumulator
respect `billAmt ≤ originalBillAmt`. -/
def grouperInv (st : List ProcessedParty × Option ProcessedParty) : Prop :=
  partiesRespectOriginal st.1
    ∧ ∀ p, st.2 = some p → ∀ b ∈ p.bills, b.billAmt ≤ b.originalBillAmt

/-- The two concrete rows of the C4 counterexample: a party header and a
detail row with `Bill Amt. = 100`, `Received = 50`. -/
def rowHeaderAcme : RawCsvRow := { partyName := "Acme", balance := "0" }

def rowDetailRecv : RawCsvRow := { billNo := "X1", billAmt := "100", received := "50" }

/-! ### Prefix classifier (csvProcessor.ts:6-98) -/

def UNMAPPED_KEY : String := "D.N/TCS"

/-- Table `DEFAULT_PREFIX_MAP` from csvProcessor.ts:9-37, in insertion order. -/
def DEFAULT_PREFIX_MAP : List (String × String) :=
  [("Al/25-26/", "GSK"), ("*HAL/25/", "GSK"), ("BSO25", "Johnson"), ("JJGS25", "Johnson"),
   ("C25Y", "Cadbury"), ("D/25-26/", "Figaro"), ("E/25-26/", "Hershey"), ("FR2526027", "Ferrero"),
   ("H/25-26/", "Haldram"), ("I/25-26/", "Ziggy"), ("K/25-26/", "Kellogs"), ("LIN10025", "Loreal"),
   ("LCBL04725", "Loreal"), ("M/25-26/", "Malas"), ("N/25-26/", "3M"), ("O/25-26/", "Lotte"),
   ("Q/25-26/", "Jimmy"), ("*Q/24-25/", "Jimmy"), ("R/25-26/", "Havells"), ("*R/24-25/", "Havells"),
   ("S2526411", "Catch"), ("*S2425411", "Catch"), ("T/25-26/", "Tops"), ("U/25-26/", "Budweiser"),
   ("V/25-26/", "Vebba"), ("W/25-26/", "Wabh Bakri"), ("Z/25-26/", "Delmonte")]

/-- JS-object lookup on an association list (insertion order, first hit;
maps produced by the code hold each key once). -/
def lookupMap (m : List (String × String)) (k : String) : Option String :=
  (m.find? (fun kv => kv.1 == k)).map Prod.snd

/-- The value taken by an entry of the first spread operand: overridden
by the second operand's value when the key collides. -/
def overrideEntry (m : List (String × String)) (kv : String × String) : String × String :=
  match lookupMap m kv.1 with
  | some v => (kv.1, v)
  | none => kv

/-- The JS object spread `{ ...base, ...m }`: base's keys in base order
(with m's value on a shared key), then m's new keys in m's order. -/
def spreadMerge (base m : List (String × String)) : List (String × String) :=
  base.map (overrideEntry m) ++ m.filter (fun kv => (lookupMap base kv.1).isNone)

/-- Function `updateGlobalPrefixMap` from csvProcessor.ts:42-44: the classifier
table becomes `{ ...DEFAULT_PREFIX_MAP, ...newMap }`. -/
def updateGlobalPrefixMap (newMap : List (String × String)) : List (String × String) :=
  spreadMerge DEFAULT_PREFIX_MAP newMap

/-- A leading `*` stripped (`upperBill.startsWith('*') ? substring(1) : ...`). -/
def stripStar (s : String) : String :=
  if startsWithJS s "*" then String.mk (s.data.drop 1) else s

/-- The `clean` helper of the fallback match: uppercase, then keep only
`A`-`Z` and `0`-`9`. -/
def cleanAlnum (s : String) : String :=
  String.mk ((upperJS s).data.filter (fun c => (decide ('A' ≤ c) && decide (c ≤ 'Z')) || c.isDigit))

/-- Function `getCompanyNameFromBillNo` from csvProcessor.ts:66-98, over an
explicit table (the mutable `CURRENT_PREFIX_MAP`). -/
def getCompanyNameFromBillNo (table : List (String × String)) (billNo : String) :
    Option String :=
  if billNo = "" then none
  else
    let upperBill := trimJS (upperJS billNo)
    let strippedBill := stripStar upperBill
    match table.find? (fun kv =>
      let upperPre := trimJS (upperJS kv.1)
      let strippedPre := stripStar upperPre
      startsWithJS upperBill upperPre || startsWithJS upperBill strippedPre
        || startsWithJS strippedBill strippedPre) with
    | some kv => some kv.2
    | none =>
      let billClean := cleanAlnum billNo
      if billClean ≠ "" then
        match table.find? (fun kv =>
          (cleanAlnum kv.1 != "") && startsWithJS billClean (cleanAlnum kv.1)) with
        | some kv => some kv.2
        | none => none
      else none

/-! ### Filter predicate (csvProcessor.ts:320-360 and the inline filter
of `downloadExcelCompanyWide`, csvProcessor.ts:630-663) -/

/-- Function `getFilterTimestamp`: `null` for an empty string, otherwise the
timestamp of `new Date(y, m-1, d).getTime()` on the split input — the
host date constructor is abstracted as `dc`. -/
def getFilterTimestamp (dc : String → Int) (dateStr : String) : Option Int :=
  if dateStr = "" then none else some (dc dateStr)

/-- JS truthiness of the number-or-null timestamp (`null` and `0` are
falsy). -/
def tsTruthy : Option Int → Bool
  | none => false
  | some v => v != 0

def tsVal : Option Int → Int
  | none => 0
  | some v => v

/-- The date-range block shared by `checkBillMatch` and the export
filters (`dateRange && (from || to)` guard, unparsable-date rejection,
the single-bound "up to" rule, and the inclusive two-bound range). -/
def dateRangeCheck (pd dc : String → Int) (b : BillDetail) :
    Option (String × String) → Bool
  | none => true
  | some (f, t) =>
    if f ≠ "" ∨ t ≠ "" then
      if pd b.billDate = 0 then false
      else
        let fromTs := getFilterTimestamp dc f
        let toTs := getFilterTimestamp dc t
        if f ≠ "" ∧ t = "" then
          !(tsTruthy fromTs && decide (tsVal fromTs < pd b.billDate))
        else
          !(tsTruthy fromTs && decide (pd b.billDate < tsVal fromTs))
            && !(tsTruthy toTs && decide (tsVal toTs < pd b.billDate))
    else true

/-- The test `filterMinDays !== '' && b.days < filterMinDays`. -/
def minDaysReject (filterMinDays : Option Int) (days : Int) : Bool :=
  match filterMinDays with
  | none => false
  | some m => decide (days < m)

/-- Function `checkBillMatch` from csvProcessor.ts:327-360 over an explicit prefix
table. -/
def checkBillMatch (pd dc : String → Int) (table : List (String × String))
    (b : BillDetail) (filterCompanies : List String) (filterMinDays : Option Int)
    (dateRange : Option (String × String)) : Bool :=
  if b.status = some BillStatus.paid ∨ b.status = some BillStatus.dispute then false
  else if filterCompanies ≠ [] ∧
      filterCompanies.contains ((getCompanyNameFromBillNo table b.billNo).getD UNMAPPED_KEY)
        = false then false
  else if minDaysReject filterMinDays b.days = true then false
  else dateRangeCheck pd dc b dateRange

/-- The inline bill filter of `downloadExcelCompanyWide`
(csvProcessor.ts:631-663), which — unlike `checkBillMatch` — rejects
`billAmt ≤ 0` first. -/
def companyWideBillFilter (pd dc : String → Int) (table : List (String × String))
    (b : BillDetail) (companyNames : List String) (minDays : Option Int)
    (dateRange : Option (String × String)) : Bool :=
  if b.billAmt ≤ 0 then false
  else if b.status = some BillStatus.paid ∨ b.status = some BillStatus.dispute then false
  else if minDaysReject minDays b.days = true then false
  else if companyNames ≠ [] ∧
      companyNames.contains ((getCompanyNameFromBillNo table b.billNo).getD UNMAPPED_KEY)
        = false then false
  else dateRangeCheck pd dc b dateRange

/-- A reconciliation-remnant bill: amount fully absorbed down to 0 (by
rounding) and no session status set. -/
def zeroRemnantBill : BillDetail :=
  { billNo := "", billDate := "", billAmt := 0, originalBillAmt := 10,
    dueDate := "", days := 0 }

/-- Constant-style date parser for witnesses: `0` on the empty string,
`1` otherwise. -/
def dcOne : String → Int := fun s => if s = "" then 0 else 1

def billC6 : BillDetail :=
  { billNo := "", billDate := "x", billAmt := 5, originalBillAmt := 5,
    dueDate := "", days := 0 }

/-! ### Session mutation layer (App.tsx:259-332) -/

/-- The recomputed party debit: sum of `billAmt` over bills whose status
is neither `paid` nor `dispute` (the JS conditional `reduce`). -/
def activeDebit (l : List BillDetail) : ℚ :=
  (l.map (fun b =>
    if b.status ≠ some BillStatus.paid ∧ b.status ≠ some BillStatus.dispute
    then b.billAmt else 0)).sum

/-- Per-bill update of `handleBillStatusChange`. -/
def statusChangeBill (billNo : String) (newStatus : Option BillStatus)
    (b : BillDetail) : BillDetail :=
  if b.billNo = billNo then { b with status := newStatus } else b

/-- Per-party update of `handleBillStatusChange` (App.tsx:259-271). -/
def statusChangeParty (partyId billNo : String) (newStatus : Option BillStatus)
    (p : ProcessedParty) : ProcessedParty :=
  if p.id ≠ partyId then p
  else
    let updatedBills := p.bills.map (statusChangeBill billNo newStatus)
    let newDebit := activeDebit updatedBills
    { p with
      bills := updatedBills
      balanceDebit := newDebit
      rawBalance := newDebit - p.balanceCredit }

/-- Function `handleBillStatusChange` over the loaded data set. -/
def handleBillStatusChange (partyId billNo : String) (newStatus : Option BillStatus)
    (data : List ProcessedParty) : List ProcessedParty :=
  data.map (statusChangeParty partyId billNo newStatus)

/-- Per-bill partial payment (App.tsx:276-291): deduct the amount; if
nothing remains mark `paid`, else keep `unpaid`; accumulate
`manualAdjustment`. -/
def applyPartialToBill (amountReceived : ℚ) (b : BillDetail) : BillDetail :=
  let remaining := b.billAmt - amountReceived
  let newManual := b.manualAdjustment.getD 0 + amountReceived
  if remaining ≤ 0 then
    { b with
      billAmt := 0
      status := some BillStatus.paid
      manualAdjustment := some newManual }
  else
    { b with
      billAmt := remaining
      status := some BillStatus.unpaid
      manualAdjustment := some newManual }

/-- Per-party update of `handlePartialPayment` (App.tsx:273-302). -/
def partialPaymentParty (partyId billNo : String) (amountReceived : ℚ)
    (p : ProcessedParty) : ProcessedParty :=
  if p.id ≠ partyId then p
  else
    let updatedBills := p.bills.map (fun b =>
      if b.billNo ≠ billNo then b else applyPartialToBill amountReceived b)
    let newDebit := activeDebit updatedBills
    { p with
      bills := updatedBills
      balanceDebit := newDebit
      rawBalance := newDebit - p.balanceCredit }

def handlePartialPayment (partyId billNo : String) (amountReceived : ℚ)
    (data : List ProcessedParty) : List ProcessedParty :=
  data.map (partialPaymentParty partyId billNo amountReceived)

/-- Per-bill undo of the cumulative partial payments (App.tsx:307-323). -/
def undoPartialOnBill (b : BillDetail) : BillDetail :=
  let adjustmentToRevert := b.manualAdjustment.getD 0
  if adjustmentToRevert = 0 then b
  else
    let newBillAmt := b.billAmt + adjustmentToRevert
    { b with
      billAmt := newBillAmt
      status := some (if 0 < newBillAmt then BillStatus.unpaid else BillStatus.paid)
      manualAdjustment := some 0 }

/-- Per-party update of `handleUndoPartialPayment` (App.tsx:304-332). -/
def undoPartialParty (partyId billNo : String) (p : ProcessedParty) : ProcessedParty :=
  if p.id ≠ partyId then p
  else
    let updatedBills := p.bills.map (fun b =>
      if b.billNo ≠ billNo then b else undoPartialOnBill b)
    let newDebit := activeDebit updatedBills
    { p with
      bills := updatedBills
      balanceDebit := newDebit
      rawBalance := newDebit - p.balanceCredit }

def handleUndoPartialPayment (partyId billNo : String)
    (data : List ProcessedParty) : List ProcessedParty :=
  data.map (undoPartialParty partyId billNo)

def billC8 : BillDetail :=
  { billNo := "B8", billDate := "", billAmt := 10, originalBillAmt := 10,
    dueDate := "", days := 0, status := some BillStatus.dispute }

def billC9 : BillDetail :=
  { billNo := "B9", billDate := "", billAmt := 1000, originalBillAmt := 1000,
    dueDate := "", days := 0 }

/-- Bill lists aligned: same length and order, and identical
`billNo`, `billDate`, `originalBillAmt`, `dueDate`, `days` — the
mutation touched only `billAmt`/`status`/`manualAdjustment`, so no FIFO
re-allocation, re-ordering or dropping happened. -/
def billsAligned : List BillDetail → List BillDetail → Prop :=
  List.Forall₂ (fun b b2 => b2.billNo = b.billNo ∧ b2.billDate = b.billDate
    ∧ b2.originalBillAmt = b.originalBillAmt ∧ b2.dueDate = b.dueDate ∧ b2.days = b.days)

/-- Post-state of a session mutation on the matched party. -/
def sessionPost (p p2 : ProcessedParty) : Prop :=
  p2.balanceCredit = p.balanceCredit
    ∧ p2.balanceDebit = activeDebit p2.bills
    ∧ p2.rawBalance = p2.balanceDebit - p2.balanceCredit
    ∧ billsAligned p.bills p2.bills

/-- Concrete party for the session-mutation witness. -/
def partyC10 : ProcessedParty :=
  { id := "p1", partyName := "W", rawBalance := 10, balanceDebit := 10,
    balanceCredit := 2, phoneNumber := "",
    bills := [{ billNo := "B1", billDate := "", billAmt := 10, originalBillAmt := 10,
                dueDate := "", days := 0 }] }

/-! ### Theorems -/

theorem TwoDec.zero : TwoDec 0 := ⟨0, by norm_num⟩

theorem TwoDec.add {a b : ℚ} (ha : TwoDec a) (hb : TwoDec b) : TwoDec (a + b) := by
  obtain ⟨k, rfl⟩ := ha; obtain ⟨m, rfl⟩ := hb
  exact ⟨k + m, by push_cast; ring⟩

theorem TwoDec.sub {a b : ℚ} (ha : TwoDec a) (hb : TwoDec b) : TwoDec (a - b) := by
  obtain ⟨k, rfl⟩ := ha; obtain ⟨m, rfl⟩ := hb
  exact ⟨k - m, by push_cast; ring⟩

theorem TwoDec.abs {a : ℚ} (ha : TwoDec a) : TwoDec |a| := by
  obtain ⟨k, rfl⟩ := ha
  rcases abs_cases ((k : ℚ) / 100) with ⟨h, _⟩ | ⟨h, _⟩
  · exact ⟨k, h⟩
  · exact ⟨-k, by rw [h]; push_cast; ring⟩

theorem absQ_eq_abs (q : ℚ) : absQ q = |q| := by
  unfold absQ
  by_cases h : q < 0
  · rw [if_pos h, abs_of_neg h]
  · rw [if_neg h, abs_of_nonneg (not_lt.mp h)]

theorem TwoDec.absQ {a : ℚ} (ha : TwoDec a) : TwoDec (OPC.absQ a) := by
  rw [absQ_eq_abs]; exact ha.abs

theorem absQ_nonneg (q : ℚ) : 0 ≤ absQ q := by rw [absQ_eq_abs]; exact abs_nonneg q

theorem round_twoDec {q : ℚ} (h : TwoDec q) : round q = q := by
  obtain ⟨k, rfl⟩ := h
  unfold round eps
  have h1 : ((k : ℚ) / 100 + 1 / 4503599627370496) * 100 + 1 / 2
      = (k : ℚ) + (100 / 4503599627370496 + 1 / 2) := by ring
  have h2 : ⌊(k : ℚ) + (100 / 4503599627370496 + 1 / 2)⌋ = k := by
    rw [Int.floor_eq_iff]
    constructor
    · norm_num
    · norm_num
  rw [h1, h2]

theorem twoDec_round (q : ℚ) : TwoDec (round q) := ⟨⌊(q + eps) * 100 + 1/2⌋, rfl⟩

theorem round_nonneg {q : ℚ} (h : 0 ≤ q) : 0 ≤ round q := by
  unfold round
  have h1 : (0 : ℚ) ≤ (q + eps) * 100 + 1/2 := by unfold eps; nlinarith
  have h2 : (0 : ℤ) ≤ ⌊(q + eps) * 100 + 1/2⌋ := by
    rw [Int.le_floor]; exact_mod_cast h1
  positivity

/-- Rounding after subtracting at least one paise cannot exceed the
original value. -/
theorem round_sub_le {a c : ℚ} (hc : 1/100 ≤ c) : round (a - c) ≤ a := by
  unfold round
  have h := Int.floor_le ((a - c + eps) * 100 + 1/2)
  have heps : eps = 1 / 4503599627370496 := rfl
  rw [heps] at h
  have h2 : ((⌊(a - c + eps) * 100 + 1/2⌋ : ℚ)) ≤ (a - c + 1 / 4503599627370496) * 100 + 1/2 := by
    rw [heps]; exact h
  linarith

theorem twoDec_pos_ge {c : ℚ} (h : TwoDec c) (hpos : 0 < c) : 1/100 ≤ c := by
  obtain ⟨k, rfl⟩ := h
  have hk : (0 : ℚ) < (k : ℚ) / 100 := hpos
  have : (0 : ℤ) < k := by
    by_contra hle
    push_neg at hle
    have : ((k : ℚ)) ≤ 0 := by exact_mod_cast hle
    nlinarith
  have : (1 : ℤ) ≤ k := this
  have : (1 : ℚ) ≤ (k : ℚ) := by exact_mod_cast this
  linarith

theorem billLE_total (pd : String → Int) (a b : ℕ × BillDetail) :
    billLE pd a b ∨ billLE pd b a := by
  unfold billLE
  rcases lt_trichotomy (pd a.2.billDate) (pd b.2.billDate) with h | h | h
  · exact Or.inl (Or.inl h)
  · rcases Nat.le_total a.1 b.1 with h2 | h2
    · exact Or.inl (Or.inr ⟨h, h2⟩)
    · exact Or.inr (Or.inr ⟨h.symm, h2⟩)
  · exact Or.inr (Or.inl h)

theorem billLE_trans (pd : String → Int) (a b c : ℕ × BillDetail)
    (h1 : billLE pd a b) (h2 : billLE pd b c) : billLE pd a c := by
  unfold billLE at *
  rcases h1 with h1 | ⟨h1, h1b⟩ <;> rcases h2 with h2 | ⟨h2, h2b⟩
  · exact Or.inl (h1.trans h2)
  · exact Or.inl (h2 ▸ h1)
  · exact Or.inl (h1 ▸ h2)
  · exact Or.inr ⟨h1.trans h2, h1b.trans h2b⟩

theorem fifoWalk_zero : ∀ l : List BillDetail, fifoWalk 0 l = (l, 0)
  | [] => rfl
  | b :: rest => by
    unfold fifoWalk
    rw [if_neg (lt_irrefl 0)]
    simp [fifoWalk_zero rest]

theorem fifoWalk_eq_specWalk : ∀ (l : List BillDetail) (c : ℚ), 0 ≤ c →
    fifoWalk c l = specWalk c l
  | [], c, _ => rfl
  | b :: rest, c, hc => by
    unfold fifoWalk specWalk
    by_cases hpos : 0 < c
    · rw [if_pos hpos, if_pos hpos]
      by_cases hcov : b.billAmt ≤ c
      · rw [if_pos hcov, if_pos hcov]
        exact fifoWalk_eq_specWalk rest _ (round_nonneg (by linarith))
      · rw [if_neg hcov, if_neg hcov]
        simp [fifoWalk_zero rest]
    · rw [if_neg hpos, if_neg hpos]
      have hz : c = 0 := le_antisymm (not_lt.mp hpos) hc
      subst hz
      simp [fifoWalk_zero rest]

theorem sumAbsAmt_nonneg (l : List BillDetail) : 0 ≤ sumAbsAmt l := by
  unfold sumAbsAmt
  induction l with
  | nil => simp
  | cons b rest ih =>
    simp only [List.map_cons, List.sum_cons]
    have := absQ_nonneg b.billAmt
    linarith

/-- C1: `finalizeParty` realises the spec's FIFO settlement: it sorts the
positive bills ascending by parsed date (ties by original row order),
walks them absorbing the rounded credit pool, keeps exactly the
not-fully-absorbed positive bills in FIFO order (a partially covered bill
retained with its amount reduced by the remaining pool), and sets
`balanceDebit` to the rounded sum of the surviving amounts,
`balanceCredit` to the leftover pool and `rawBalance` to their rounded
difference; fully absorbed and negative bills never reach the output. -/
theorem finalizeParty_eq_spec (pd : String → Int) (party : ProcessedParty) :
    finalizeParty pd party = specFinalizeParty pd party := by
  have h := fifoWalk_eq_specWalk (sortedPositives pd party.bills)
    (round (sumAbsAmt (party.bills.filter (fun b => decide (b.billAmt < 0)))))
    (round_nonneg (sumAbsAmt_nonneg _))
  unfold finalizeParty specFinalizeParty
  simp only [h]

theorem attachIdxFrom_map_snd {α : Type} : ∀ (n : ℕ) (l : List α),
    (attachIdxFrom n l).map Prod.snd = l
  | _, [] => rfl
  | n, b :: rest => by
    simp only [attachIdxFrom, List.map_cons]
    rw [attachIdxFrom_map_snd (n + 1) rest]

theorem mem_attachIdxFrom {α : Type} :
    ∀ {n : ℕ} {l : List α} {x : ℕ × α}, x ∈ attachIdxFrom n l → n ≤ x.1 ∧ x.2 ∈ l
  | _, [], _, hx => by simp [attachIdxFrom] at hx
  | n, b :: rest, x, hx => by
    simp only [attachIdxFrom, List.mem_cons] at hx
    rcases hx with rfl | hx2
    · exact ⟨le_refl n, List.mem_cons_self _ _⟩
    · obtain ⟨h1, h2⟩ := mem_attachIdxFrom hx2
      exact ⟨by omega, List.mem_cons_of_mem _ h2⟩

theorem attachIdx_filter_pos_snd :
    ∀ (n : ℕ) (l : List BillDetail),
      ((attachIdxFrom n l).filter (fun ib => decide (0 < ib.2.billAmt))).map Prod.snd
        = l.filter (fun b => decide (0 < b.billAmt))
  | _, [] => rfl
  | n, b :: rest => by
    simp only [attachIdxFrom, List.filter_cons]
    by_cases hb : 0 < b.billAmt
    · simp [hb, attachIdx_filter_pos_snd (n + 1) rest]
    · simp [hb, attachIdx_filter_pos_snd (n + 1) rest]

theorem mem_sortedPositives {pd : String → Int} {bills : List BillDetail} {b : BillDetail}
    (hb : b ∈ sortedPositives pd bills) : b ∈ bills ∧ 0 < b.billAmt := by
  unfold sortedPositives at hb
  obtain ⟨ib, hib, rfl⟩ := List.mem_map.mp hb
  rw [List.mem_insertionSort, List.mem_filter] at hib
  obtain ⟨hmem, hpos⟩ := hib
  exact ⟨(mem_attachIdxFrom hmem).2, by simpa using hpos⟩

theorem sumAmt_sortedPositives (pd : String → Int) (bills : List BillDetail) :
    sumAmt (sortedPositives pd bills)
      = sumAmt (bills.filter (fun b => decide (0 < b.billAmt))) := by
  unfold sortedPositives sumAmt
  rw [List.map_map]
  have hperm := (List.perm_insertionSort (billLE pd)
    ((attachIdxFrom 0 bills).filter (fun ib => decide (0 < ib.2.billAmt)))).map
    (BillDetail.billAmt ∘ Prod.snd)
  rw [hperm.sum_eq]
  rw [← List.map_map, attachIdx_filter_pos_snd]

theorem twoDec_sumAmt : ∀ {l : List BillDetail}, (∀ b ∈ l, TwoDec b.billAmt) →
    TwoDec (sumAmt l)
  | [], _ => by simpa [sumAmt] using TwoDec.zero
  | b :: rest, h => by
    have h1 := h b (List.mem_cons_self _ _)
    have h2 := twoDec_sumAmt (fun x hx => h x (List.mem_cons_of_mem _ hx))
    simpa [sumAmt] using h1.add h2

theorem twoDec_sumAbsAmt : ∀ {l : List BillDetail}, (∀ b ∈ l, TwoDec b.billAmt) →
    TwoDec (sumAbsAmt l)
  | [], _ => by simpa [sumAbsAmt] using TwoDec.zero
  | b :: rest, h => by
    have h1 := (h b (List.mem_cons_self _ _)).absQ
    have h2 := twoDec_sumAbsAmt (fun x hx => h x (List.mem_cons_of_mem _ hx))
    simpa [sumAbsAmt] using h1.add h2

/-- Exact credit conservation of the FIFO walk when the pool and every
bill amount are exact two-decimal values. -/
theorem fifoWalk_conserve : ∀ (l : List BillDetail) (c : ℚ), 0 ≤ c → TwoDec c →
    (∀ b ∈ l, TwoDec b.billAmt) →
    sumAmt l - sumAmt (fifoWalk c l).1 = c - (fifoWalk c l).2
  | [], c, _, _, _ => by simp [fifoWalk, sumAmt]
  | b :: rest, c, hc, hcd, hl => by
    have hb := hl b (List.mem_cons_self _ _)
    have hrest : ∀ x ∈ rest, TwoDec x.billAmt := fun x hx => hl x (List.mem_cons_of_mem _ hx)
    unfold fifoWalk
    by_cases hpos : 0 < c
    · rw [if_pos hpos]
      by_cases hcov : b.billAmt ≤ c
      · rw [if_pos hcov]
        have hr : round (c - b.billAmt) = c - b.billAmt := round_twoDec (hcd.sub hb)
        have ih := fifoWalk_conserve rest (round (c - b.billAmt))
          (by rw [hr]; linarith) (twoDec_round _) hrest
        simp only [sumAmt, List.map_cons, List.sum_cons]
        simp only [sumAmt] at ih
        rw [hr] at ih ⊢
        linarith
      · rw [if_neg hcov]
        have hr : round (b.billAmt - c) = b.billAmt - c := round_twoDec (hb.sub hcd)
        simp only [fifoWalk_zero rest, sumAmt, List.map_cons, List.sum_cons, hr]
        ring
    · rw [if_neg hpos]
      have hz : c = 0 := le_antisymm (not_lt.mp hpos) hc
      subst hz
      simp [fifoWalk_zero rest, sumAmt]

/-- C2 (amended): credit conservation of `finalizeParty` for exact
two-decimal bill amounts.  `consumed` is the initial rounded pool minus
the leftover `balanceCredit`; the sum of positive amounts fed in minus
the sum after finalize equals `consumed`, and `consumed` plus the
leftover `balanceCredit` equals the total magnitude of the negative
bills.  (With sub-cent amounts the per-step rounding breaks this; see the
counterexample.) -/
theorem finalizeParty_conservation (pd : String → Int) (party : ProcessedParty)
    (h : ∀ b ∈ party.bills, TwoDec b.billAmt) :
    (sumAmt (party.bills.filter (fun b => decide (0 < b.billAmt)))
        - sumAmt (finalizeParty pd party).bills
      = round (sumAbsAmt (party.bills.filter (fun b => decide (b.billAmt < 0))))
        - (finalizeParty pd party).balanceCredit)
    ∧ (round (sumAbsAmt (party.bills.filter (fun b => decide (b.billAmt < 0))))
        - (finalizeParty pd party).balanceCredit)
        + (finalizeParty pd party).balanceCredit
      = sumAbsAmt (party.bills.filter (fun b => decide (b.billAmt < 0))) := by
  have hnegDec : TwoDec (sumAbsAmt (party.bills.filter (fun b => decide (b.billAmt < 0)))) :=
    twoDec_sumAbsAmt (fun b hb => h b (List.mem_of_mem_filter hb))
  have hwalk := fifoWalk_conserve (sortedPositives pd party.bills)
    (round (sumAbsAmt (party.bills.filter (fun b => decide (b.billAmt < 0)))))
    (round_nonneg (sumAbsAmt_nonneg _)) (twoDec_round _)
    (fun b hb => h b (mem_sortedPositives hb).1)
  rw [sumAmt_sortedPositives] at hwalk
  constructor
  · simpa only [finalizeParty] using hwalk
  · simp only [finalizeParty]
    rw [round_twoDec hnegDec]
    ring

/-- C2 counterexample: a party with one sub-cent positive bill (0.004) and
one negative bill (-10).  The walk absorbs the 0.004 bill but
`round(10 - 0.004) = 10`, so the leftover credit is still 10 and
`(positive in) - (out) + balanceCredit = 10.004 ≠ 10`: credit is created
by the per-step rounding, refuting the claim as stated. -/
theorem conservation_fails_subcent :
    sumAmt (partyC2.bills.filter (fun b => decide (0 < b.billAmt)))
      - sumAmt (finalizeParty pdZero partyC2).bills
      + (finalizeParty pdZero partyC2).balanceCredit
      ≠ sumAbsAmt (partyC2.bills.filter (fun b => decide (b.billAmt < 0))) := by
  norm_num [partyC2, billPosTiny, billNegTen, finalizeParty, sortedPositives, attachIdxFrom,
    billLE, fifoWalk, sumAmt, sumAbsAmt, absQ, round, eps, pdZero]

/-- Closed instance of `finalizeParty_conservation`. -/
theorem finalizeParty_conservation_witness :
    (sumAmt (partyC2w.bills.filter (fun b => decide (0 < b.billAmt)))
        - sumAmt (finalizeParty pdZero partyC2w).bills
      = round (sumAbsAmt (partyC2w.bills.filter (fun b => decide (b.billAmt < 0))))
        - (finalizeParty pdZero partyC2w).balanceCredit)
    ∧ (round (sumAbsAmt (partyC2w.bills.filter (fun b => decide (b.billAmt < 0))))
        - (finalizeParty pdZero partyC2w).balanceCredit)
        + (finalizeParty pdZero partyC2w).balanceCredit
      = sumAbsAmt (partyC2w.bills.filter (fun b => decide (b.billAmt < 0))) :=
  finalizeParty_conservation pdZero partyC2w
    (by intro b hb; fin_cases hb; exact ⟨-1000, by norm_num [billNegTen]⟩)

theorem sorted_dates_sortedPositives (pd : String → Int) (bills : List BillDetail) :
    (sortedPositives pd bills).Sorted (fun a b => pd a.billDate ≤ pd b.billDate) := by
  unfold sortedPositives
  have hs : List.Sorted (billLE pd) (List.insertionSort (billLE pd)
      ((attachIdxFrom 0 bills).filter (fun ib => decide (0 < ib.2.billAmt)))) := by
    haveI : IsTotal (ℕ × BillDetail) (billLE pd) := ⟨billLE_total pd⟩
    haveI : IsTrans (ℕ × BillDetail) (billLE pd) := ⟨billLE_trans pd⟩
    exact List.sorted_insertionSort _ _
  exact hs.map Prod.snd (fun a b hab => by
    rcases hab with h | ⟨h, _⟩
    · exact le_of_lt h
    · exact le_of_eq h)

theorem sorted_attachIdxFrom {pd : String → Int} :
    ∀ {l : List BillDetail},
      l.Sorted (fun a b => pd a.billDate ≤ pd b.billDate) →
      ∀ n, (attachIdxFrom n l).Sorted (billLE pd)
  | [], _, _ => List.sorted_nil
  | b :: rest, h, n => by
    rw [List.sorted_cons] at h
    obtain ⟨hb, hrest⟩ := h
    show List.Sorted (billLE pd) ((n, b) :: attachIdxFrom (n + 1) rest)
    rw [List.sorted_cons]
    constructor
    · intro x hx
      obtain ⟨hn, hmem⟩ := mem_attachIdxFrom hx
      rcases lt_or_eq_of_le (hb x.2 hmem) with hlt | heq
      · exact Or.inl hlt
      · exact Or.inr ⟨heq, by omega⟩
    · exact sorted_attachIdxFrom hrest (n + 1)

/-- Sorting a date-sorted, all-positive bill list is the identity. -/
theorem sortedPositives_of_sorted {pd : String → Int} {L : List BillDetail}
    (hpos : ∀ b ∈ L, 0 < b.billAmt)
    (hsort : L.Sorted (fun a b => pd a.billDate ≤ pd b.billDate)) :
    sortedPositives pd L = L := by
  unfold sortedPositives
  have hf : (attachIdxFrom 0 L).filter (fun ib => decide (0 < ib.2.billAmt))
      = attachIdxFrom 0 L :=
    List.filter_eq_self.mpr (fun ib hib => by
      simpa using hpos ib.2 (mem_attachIdxFrom hib).2)
  rw [hf, (sorted_attachIdxFrom hsort 0).insertionSort_eq, attachIdxFrom_map_snd]

/-- On a party without negative bills the credit pool is zero and
`finalizeParty` reduces to sorting the positive bills and recomputing the
balances. -/
theorem finalizeParty_no_neg (pd : String → Int) (party : ProcessedParty)
    (h : ∀ b ∈ party.bills, 0 ≤ b.billAmt) :
    finalizeParty pd party = { party with
      bills := sortedPositives pd party.bills
      balanceDebit := round (sumAmt (sortedPositives pd party.bills))
      balanceCredit := 0
      rawBalance := round (round (sumAmt (sortedPositives pd party.bills)) - 0) } := by
  have hneg : party.bills.filter (fun b => decide (b.billAmt < 0)) = [] :=
    List.filter_eq_nil_iff.mpr (fun b hb => by simpa using h b hb)
  have hzero : round (sumAbsAmt (party.bills.filter (fun b => decide (b.billAmt < 0)))) = 0 := by
    rw [hneg]
    show round (sumAbsAmt []) = 0
    have : sumAbsAmt [] = 0 := rfl
    rw [this, round_twoDec TwoDec.zero]
  simp only [finalizeParty, hzero, fifoWalk_zero]

/-- C3: on a party with no negative-amount bills (the state every party
is in after its first finalization), running `finalizeParty` twice gives
the same `bills`, `balanceDebit`, `balanceCredit` and `rawBalance` as
running it once. -/
theorem finalizeParty_idempotent (pd : String → Int) (party : ProcessedParty)
    (h : ∀ b ∈ party.bills, 0 ≤ b.billAmt) :
    finalizeParty pd (finalizeParty pd party) = finalizeParty pd party := by
  rw [finalizeParty_no_neg pd party h]
  have hpos : ∀ b ∈ sortedPositives pd party.bills, 0 < b.billAmt :=
    fun b hb => (mem_sortedPositives hb).2
  rw [finalizeParty_no_neg pd _ (fun b hb => le_of_lt (hpos b hb))]
  simp only
  rw [sortedPositives_of_sorted hpos (sorted_dates_sortedPositives pd party.bills)]

/-- Closed instance of `finalizeParty_idempotent`. -/
theorem finalizeParty_idempotent_witness :
    finalizeParty pdLen (finalizeParty pdLen partyC3) = finalizeParty pdLen partyC3 :=
  finalizeParty_idempotent pdLen partyC3 (by
    intro b hb
    fin_cases hb <;> norm_num)

/-- Each surviving bill of the walk descends from an input bill with the
same `originalBillAmt` and a no-larger `billAmt`. -/
theorem fifoWalk_le : ∀ (l : List BillDetail) (c : ℚ), TwoDec c →
    ∀ b' ∈ (fifoWalk c l).1,
      ∃ b0 ∈ l, b'.originalBillAmt = b0.originalBillAmt ∧ b'.billAmt ≤ b0.billAmt
  | [], _, _, b', hb' => by simp [fifoWalk] at hb'
  | b :: rest, c, hc, b', hb' => by
    unfold fifoWalk at hb'
    by_cases hpos : 0 < c
    · rw [if_pos hpos] at hb'
      by_cases hcov : b.billAmt ≤ c
      · rw [if_pos hcov] at hb'
        obtain ⟨b0, h1, h2⟩ := fifoWalk_le rest _ (twoDec_round _) b' hb'
        exact ⟨b0, List.mem_cons_of_mem _ h1, h2⟩
      · rw [if_neg hcov] at hb'
        simp only [fifoWalk_zero] at hb'
        rcases List.mem_cons.mp hb' with rfl | hmem
        · exact ⟨b, List.mem_cons_self _ _, rfl, round_sub_le (twoDec_pos_ge hc hpos)⟩
        · exact ⟨b', List.mem_cons_of_mem _ hmem, rfl, le_refl _⟩
    · rw [if_neg hpos] at hb'
      simp only at hb'
      rcases List.mem_cons.mp hb' with rfl | hmem
      · exact ⟨b', List.mem_cons_self _ _, rfl, le_refl _⟩
      · obtain ⟨b0, h1, h2⟩ := fifoWalk_le rest c hc b' hmem
        exact ⟨b0, List.mem_cons_of_mem _ h1, h2⟩

theorem finalizeParty_le (pd : String → Int) (p : ProcessedParty)
    (h : ∀ b ∈ p.bills, b.billAmt ≤ b.originalBillAmt) :
    ∀ b ∈ (finalizeParty pd p).bills, b.billAmt ≤ b.originalBillAmt := by
  intro b hb
  simp only [finalizeParty] at hb
  obtain ⟨b0, h1, h2, h3⟩ := fifoWalk_le _ _ (twoDec_round _) b hb
  rw [h2]
  exact le_trans h3 (h b0 (mem_sortedPositives h1).1)

theorem processRow_inv (pd : String → Int) (now : String)
    (st : List ProcessedParty × Option ProcessedParty) (ir : ℕ × RawCsvRow)
    (hrow : rowAmountsExact ir.2) (hst : grouperInv st) :
    grouperInv (processRow pd now st ir) := by
  obtain ⟨parties, cur⟩ := st
  obtain ⟨hps, hcur⟩ := hst
  cases cur with
  | none =>
    unfold processRow
    by_cases hname : trimJS ir.2.partyName ≠ ""
    · rw [if_pos hname]
      refine ⟨by simpa using hps, ?_⟩
      intro q hq b hb
      have hq2 := Option.some_inj.mp hq
      rw [← hq2] at hb
      simp at hb
    · rw [if_neg hname]
      exact ⟨hps, fun p hp => by simp at hp⟩
  | some p =>
    unfold processRow
    by_cases hname : trimJS ir.2.partyName ≠ ""
    · rw [if_pos hname]
      refine ⟨?_, ?_⟩
      · simp only
        intro q hq
        rcases List.mem_append.mp hq with hq2 | hq2
        · exact hps q hq2
        · rw [List.mem_singleton.mp hq2]
          exact finalizeParty_le pd p (hcur p rfl)
      · intro q hq b hb
        have hq2 := Option.some_inj.mp hq
        rw [← hq2] at hb
        simp at hb
    · rw [if_neg hname]
      simp only
      by_cases hkeep : absQ (if 0 < absQ (cleanCurrency ir.2.received)
          then round (cleanCurrency ir.2.billAmt - cleanCurrency ir.2.received)
          else cleanCurrency ir.2.billAmt) ≠ 0
        ∨ trimJS ir.2.billNo ≠ "" ∨ trimJS ir.2.billDate ≠ ""
      · rw [if_pos hkeep]
        refine ⟨hps, ?_⟩
        intro q hq b hb
        have hq2 := Option.some_inj.mp hq
        rw [← hq2] at hb
        simp only [List.mem_append, List.mem_singleton] at hb
        rcases hb with hb | hb
        · exact hcur p rfl b hb
        · rw [hb]
          simp only
          obtain ⟨hraw, hrecv, hrnn⟩ := hrow
          by_cases hr : 0 < absQ (cleanCurrency ir.2.received)
          · rw [if_pos hr]
            have hrpos : 0 < cleanCurrency ir.2.received := by
              rw [absQ_eq_abs, abs_of_nonneg hrnn] at hr
              exact hr
            exact round_sub_le (twoDec_pos_ge hrecv hrpos)
          · rw [if_neg hr]
      · rw [if_neg hkeep]
        exact ⟨hps, fun q hq => by
          have hq2 := Option.some_inj.mp hq
          rw [← hq2]
          exact hcur p rfl⟩

theorem foldl_processRow_inv (pd : String → Int) (now : String) :
    ∀ (l : List (ℕ × RawCsvRow)) (st : List ProcessedParty × Option ProcessedParty),
      (∀ ir ∈ l, rowAmountsExact ir.2) → grouperInv st →
      grouperInv (l.foldl (processRow pd now) st)
  | [], _, _, hst => hst
  | ir :: rest, st, h, hst =>
    foldl_processRow_inv pd now rest _ (fun x hx => h x (List.mem_cons_of_mem _ hx))
      (processRow_inv pd now st ir (h ir (List.mem_cons_self _ _)) hst)

/-- C4 (amended): each appended bill records the gross
`cleanCurrency(BillAmt)` as `originalBillAmt`; provided every row's
parsed amounts are exact two-decimal values with nonnegative `Received`,
every bill of every party produced by `processRawData` satisfies
`billAmt ≤ originalBillAmt` after finalization. -/
theorem processRawData_le_original (pd : String → Int) (now : String)
    (rows : List RawCsvRow) (h : ∀ r ∈ rows, rowAmountsExact r) :
    partiesRespectOriginal (processRawData pd now rows) := by
  have hinv := foldl_processRow_inv pd now (attachIdxFrom 0 rows) ([], none)
    (fun ir hir => h ir.2 (mem_attachIdxFrom hir).2)
    ⟨fun p hp => by simp at hp, fun p hp => by simp at hp⟩
  obtain ⟨h1, h2⟩ := hinv
  unfold processRawData
  cases hc : ((attachIdxFrom 0 rows).foldl (processRow pd now) ([], none)).2 with
  | none => simpa [hc] using h1
  | some p =>
    simp only [hc]
    intro q hq
    rcases List.mem_append.mp hq with hq2 | hq2
    · exact h1 q hq2
    · rw [List.mem_singleton.mp hq2]
      exact finalizeParty_le pd p (h2 p hc)

unseal Rat.add Rat.mul Rat.sub Rat.inv in
/-- C4 counterexample: for the detail row (BillAmt "100", Received "50")
the appended bill carries the computed net amount 50 as `billAmt` but the
gross 100 — not the computed amount — as `originalBillAmt`, refuting the
claim that both fields carry the computed amount. -/
theorem originalBillAmt_is_gross :
    ((processRawData pdZero "t" [rowHeaderAcme, rowDetailRecv]).map
        (fun p => p.bills.map (fun b => (b.billAmt, b.originalBillAmt))))
      = [[((50 : ℚ), (100 : ℚ))]] ∧ (50 : ℚ) ≠ 100 := by
  decide

unseal Rat.add Rat.mul Rat.sub Rat.inv in
/-- Closed instance of `processRawData_le_original`. -/
theorem processRawData_le_original_witness :
    partiesRespectOriginal (processRawData pdZero "t" [rowHeaderAcme, rowDetailRecv]) :=
  processRawData_le_original pdZero "t" [rowHeaderAcme, rowDetailRecv] (by
    intro r hr
    fin_cases hr
    · exact ⟨⟨0, by decide⟩, ⟨0, by decide⟩, by decide⟩
    · exact ⟨⟨10000, by decide⟩, ⟨5000, by decide⟩, by decide⟩)

/-- C7 counterexample: after `updateGlobalPrefixMap({})` the table is not
the uploaded (empty) map — the default entry `C25Y ↦ Cadbury`, present
before the update and absent from the uploaded map, still classifies
`C25Y1`. -/
theorem updateGlobalPrefixMap_not_wholesale :
    updateGlobalPrefixMap [] ≠ []
      ∧ getCompanyNameFromBillNo (updateGlobalPrefixMap []) "C25Y1" = some "Cadbury" := by
  decide

theorem find?_filter_of_keep {α : Type} (p q : α → Bool) :
    ∀ (l : List α), (∀ a ∈ l, p a = true → q a = true) →
      (l.filter q).find? p = l.find? p
  | [], _ => rfl
  | a :: rest, h => by
    have hrest := find?_filter_of_keep p q rest (fun x hx => h x (List.mem_cons_of_mem _ hx))
    by_cases hp : p a = true
    · rw [List.filter_cons, h a (List.mem_cons_self _ _) hp]
      simp only [if_pos]
      rw [List.find?_cons_of_pos _ hp, List.find?_cons_of_pos _ hp]
    · rw [List.filter_cons]
      by_cases hq : q a = true
      · rw [if_pos hq, List.find?_cons_of_neg _ (by simp [hp]), List.find?_cons_of_neg _ (by simp [hp])]
        exact hrest
      · rw [if_neg hq, List.find?_cons_of_neg _ (by simp [hp])]
        exact hrest

theorem overrideEntry_fst (m : List (String × String)) (kv : String × String) :
    (overrideEntry m kv).1 = kv.1 := by
  unfold overrideEntry
  cases lookupMap m kv.1 <;> rfl

theorem lookupMap_spreadMerge (base m : List (String × String)) (k : String) :
    lookupMap (spreadMerge base m) k
      = match lookupMap m k with
        | some v => some v
        | none => lookupMap base k := by
  have hlk : ∀ (l : List (String × String)) (x : String),
      lookupMap l x = (l.find? (fun kv => kv.1 == x)).map Prod.snd := fun _ _ => rfl
  have hpred : ((fun kv : String × String => kv.1 == k) ∘ overrideEntry m)
      = fun kv : String × String => kv.1 == k := by
    funext kv
    simp only [Function.comp_apply, overrideEntry_fst m kv]
  unfold spreadMerge
  rw [hlk, List.find?_append, List.find?_map, hpred]
  cases hbase : List.find? (fun kv => kv.1 == k) base with
  | some kv0 =>
    have hk : kv0.1 = k := by
      have := List.find?_some hbase
      simpa using this
    cases hm : List.find? (fun kv => kv.1 == k) m with
    | some kvm =>
      have hmm : lookupMap m k = some kvm.2 := by rw [hlk, hm]; rfl
      simp only [Option.map_some', Option.or_some, hmm]
      show some (overrideEntry m kv0).2 = some kvm.2
      unfold overrideEntry
      rw [hk, hmm]
    | none =>
      have hmm : lookupMap m k = none := by rw [hlk, hm]; rfl
      have hbb : lookupMap base k = some kv0.2 := by rw [hlk, hbase]; rfl
      simp only [Option.map_some', Option.or_some, hmm, hbb]
      show some (overrideEntry m kv0).2 = some kv0.2
      unfold overrideEntry
      rw [hk, hmm]
  | none =>
    have hbb : lookupMap base k = none := by rw [hlk, hbase]; rfl
    have hkeep : ∀ kv ∈ m, (kv.1 == k) = true → ((lookupMap base kv.1).isNone) = true := by
      intro kv _ hkv
      have hkk : kv.1 = k := by simpa using hkv
      rw [hkk, hbb]
      rfl
    simp only [Option.map_none', Option.none_or]
    rw [find?_filter_of_keep _ _ m hkeep]
    cases hm : List.find? (fun kv => kv.1 == k) m with
    | some kvm =>
      have hmm : lookupMap m k = some kvm.2 := by rw [hlk, hm]; rfl
      rw [hmm]
      rfl
    | none =>
      have hmm : lookupMap m k = none := by rw [hlk, hm]; rfl
      rw [hmm, hbb]
      rfl

/-- C7 (amended): `updateGlobalPrefixMap(M)` replaces the table with the
default map overridden by `M`: a key of `M` classifies with `M`'s value,
a default prefix absent from `M` keeps classifying with its default
company, so only entries of a previously uploaded map that are absent
from both `M` and the defaults stop applying. -/
theorem updateGlobalPrefixMap_lookup (newMap : List (String × String)) (k : String) :
    lookupMap (updateGlobalPrefixMap newMap) k
      = match lookupMap newMap k with
        | some v => some v
        | none => lookupMap DEFAULT_PREFIX_MAP k :=
  lookupMap_spreadMerge DEFAULT_PREFIX_MAP newMap k

/-- C5: `checkBillMatch` — the predicate the spec calls the shared
display/export filter — does not test `billAmt`, so a zero-amount bill
with no active status matches it, while the company-wide export filter
rejects the same bill: the "billAmt ≤ 0 never matches" rule is enforced
only by the company-wide filter. -/
theorem checkBillMatch_zero_amount_divergence :
    checkBillMatch pdZero pdZero [] zeroRemnantBill [] none none = true
      ∧ companyWideBillFilter pdZero pdZero [] zeroRemnantBill [] none none = false := by
  decide

theorem checkBillMatch_split (pd dc : String → Int) (table : List (String × String))
    (b : BillDetail) (cos : List String) (md : Option Int)
    (dr : Option (String × String)) :
    checkBillMatch pd dc table b cos md dr
      = (checkBillMatch pd dc table b cos md none && dateRangeCheck pd dc b dr) := by
  unfold checkBillMatch
  split_ifs <;> simp [dateRangeCheck]

/-- C6: date-range semantics of `checkBillMatch` (with nonzero, hence
truthy, parsed bound timestamps).  With only `from` set, an otherwise
matching bill matches iff its parsed date is nonzero and at most the
`from` timestamp ("up to" rule); with both bounds set the range is the
inclusive `[from, to]`; and a bill whose date parses to `0` never
matches while either bound is active. -/
theorem checkBillMatch_dateRange (pd dc : String → Int) (table : List (String × String))
    (b : BillDetail) (cos : List String) (md : Option Int) (f t f2 t2 : String)
    (hf : f ≠ "") (hft : dc f ≠ 0) (hor : f2 ≠ "" ∨ t2 ≠ "") :
    (t = "" →
      (checkBillMatch pd dc table b cos md (some (f, t)) = true
        ↔ (checkBillMatch pd dc table b cos md none = true
            ∧ pd b.billDate ≠ 0 ∧ pd b.billDate ≤ dc f)))
    ∧ (t ≠ "" → dc t ≠ 0 →
      (checkBillMatch pd dc table b cos md (some (f, t)) = true
        ↔ (checkBillMatch pd dc table b cos md none = true
            ∧ pd b.billDate ≠ 0 ∧ dc f ≤ pd b.billDate ∧ pd b.billDate ≤ dc t)))
    ∧ (pd b.billDate = 0 →
        checkBillMatch pd dc table b cos md (some (f2, t2)) = false) := by
  refine ⟨?_, ?_, ?_⟩
  · intro ht
    subst ht
    rw [checkBillMatch_split]
    simp only [dateRangeCheck]
    rw [if_pos (Or.inl hf)]
    by_cases hd : pd b.billDate = 0
    · simp [hd]
    · rw [if_neg hd, if_pos (And.intro hf trivial)]
      unfold getFilterTimestamp
      rw [if_neg hf]
      simp only [tsTruthy, tsVal]
      simp [hft, hd, not_lt]
  · intro ht htt
    rw [checkBillMatch_split]
    simp only [dateRangeCheck]
    rw [if_pos (Or.inl hf)]
    by_cases hd : pd b.billDate = 0
    · simp [hd]
    · have hcond : ¬(f ≠ "" ∧ t = "") := fun hc => ht hc.2
      rw [if_neg hd, if_neg hcond]
      unfold getFilterTimestamp
      rw [if_neg hf, if_neg ht]
      simp only [tsTruthy, tsVal]
      simp [hft, htt, hd, not_lt]
  · intro hd
    rw [checkBillMatch_split]
    simp only [dateRangeCheck]
    rw [if_pos hor, if_pos hd]
    simp

/-- Closed instance of `checkBillMatch_dateRange` (the single-bound
"up to" part). -/
theorem checkBillMatch_dateRange_witness :
    checkBillMatch dcOne dcOne [] billC6 [] none (some ("2024-01-31", "")) = true
      ↔ (checkBillMatch dcOne dcOne [] billC6 [] none none = true
          ∧ dcOne billC6.billDate ≠ 0 ∧ dcOne billC6.billDate ≤ dcOne "2024-01-31") :=
  (checkBillMatch_dateRange dcOne dcOne [] billC6 [] none "2024-01-31" "" "" "x"
    (by decide) (by decide) (Or.inr (by decide))).1 rfl

/-- C8: a partial payment of `A > 0` against a bill at `billAmt = R`
settles the bill (`billAmt = 0`, status forced `paid`) when `A ≥ R` and
reduces it (`billAmt = R - A`, status forced `unpaid`) when `A < R`, with
`manualAdjustment` increased by `A`, overwriting any prior status. -/
theorem applyPartialToBill_cases (b : BillDetail) (A : ℚ) (_hA : 0 < A) :
    (b.billAmt ≤ A →
      applyPartialToBill A b = { b with
        billAmt := 0
        status := some BillStatus.paid
        manualAdjustment := some (b.manualAdjustment.getD 0 + A) })
    ∧ (A < b.billAmt →
      applyPartialToBill A b = { b with
        billAmt := b.billAmt - A
        status := some BillStatus.unpaid
        manualAdjustment := some (b.manualAdjustment.getD 0 + A) }) := by
  constructor
  · intro h
    simp only [applyPartialToBill]
    rw [if_pos (by linarith)]
  · intro h
    simp only [applyPartialToBill]
    rw [if_neg (by push_neg; linarith)]

/-- Closed instance of `applyPartialToBill_cases` (both branches, at a
previously disputed bill). -/
theorem applyPartialToBill_cases_witness :
    applyPartialToBill 15 billC8 = { billC8 with
        billAmt := 0
        status := some BillStatus.paid
        manualAdjustment := some (billC8.manualAdjustment.getD 0 + 15) }
      ∧ applyPartialToBill 4 billC8 = { billC8 with
        billAmt := billC8.billAmt - 4
        status := some BillStatus.unpaid
        manualAdjustment := some (billC8.manualAdjustment.getD 0 + 4) } :=
  ⟨(applyPartialToBill_cases billC8 15 (by norm_num)).1 (by norm_num [billC8]),
   (applyPartialToBill_cases billC8 4 (by norm_num)).2 (by norm_num [billC8])⟩

unseal Rat.add Rat.mul Rat.sub Rat.inv in
/-- C9 counterexample: paying 1500 against a 1000 bill and undoing does
not restore the bill — the undo adds back the whole `manualAdjustment`
(1500) to the zeroed bill, leaving `billAmt = 1500 ≠ 1000`. -/
theorem undoPartial_overpay_not_restored :
    (undoPartialOnBill (applyPartialToBill 1500 billC9)).billAmt = 1500
      ∧ (1500 : ℚ) ≠ 1000 := by
  decide

/-- C9 (amended): for a bill with `billAmt = R ≥ 0` and no prior
`manualAdjustment`, a partial payment of `A ≤ R` followed by the undo
restores `billAmt = R` and `manualAdjustment = 0`, with the status
recomputed to `unpaid` when `R > 0` and `paid` otherwise.  (When `A`
exceeds `R` the undo instead lands at `billAmt = A`; see the
counterexample.) -/
theorem payment_undo_roundtrip (b : BillDetail) (A : ℚ)
    (h0 : b.manualAdjustment.getD 0 = 0) (hR : 0 ≤ b.billAmt) (hA : A ≤ b.billAmt) :
    (undoPartialOnBill (applyPartialToBill A b)).billAmt = b.billAmt
      ∧ (undoPartialOnBill (applyPartialToBill A b)).manualAdjustment.getD 0 = 0
      ∧ (undoPartialOnBill (applyPartialToBill A b)).status
          = some (if 0 < b.billAmt then BillStatus.unpaid else BillStatus.paid) := by
  simp only [applyPartialToBill, h0, zero_add]
  by_cases hcov : b.billAmt - A ≤ 0
  · have hAR : A = b.billAmt := le_antisymm hA (by linarith)
    rw [if_pos hcov]
    simp only [undoPartialOnBill, Option.getD_some]
    by_cases hz : A = 0
    · rw [if_pos hz]
      subst hz
      have hb0 : b.billAmt = 0 := le_antisymm (by linarith) hR
      simp [hb0]
    · rw [if_neg hz]
      have hApos : 0 < A := lt_of_le_of_ne (hAR ▸ hR) (Ne.symm hz)
      simp only [zero_add]
      refine ⟨hAR, rfl, ?_⟩
      rw [if_pos hApos, if_pos (hAR ▸ hApos)]
  · rw [if_neg hcov]
    push_neg at hcov
    simp only [undoPartialOnBill, Option.getD_some]
    by_cases hz : A = 0
    · rw [if_pos hz]
      subst hz
      refine ⟨by simp, rfl, ?_⟩
      have hpos : 0 < b.billAmt := by linarith
      rw [if_pos hpos]
    · rw [if_neg hz]
      simp only
      refine ⟨by ring, rfl, ?_⟩
      congr 2
      have : b.billAmt - A + A = b.billAmt := by ring
      rw [this]

/-- Closed instance of `payment_undo_roundtrip` (the spec's 300
against 1000 example). -/
theorem payment_undo_roundtrip_witness :
    (undoPartialOnBill (applyPartialToBill 300 billC9)).billAmt = billC9.billAmt
      ∧ (undoPartialOnBill (applyPartialToBill 300 billC9)).manualAdjustment.getD 0 = 0
      ∧ (undoPartialOnBill (applyPartialToBill 300 billC9)).status
          = some (if 0 < billC9.billAmt then BillStatus.unpaid else BillStatus.paid) :=
  payment_undo_roundtrip billC9 300 (by norm_num [billC9]) (by norm_num [billC9])
    (by norm_num [billC9])

theorem billsAligned_map (g : BillDetail → BillDetail)
    (hg : ∀ b, (g b).billNo = b.billNo ∧ (g b).billDate = b.billDate
      ∧ (g b).originalBillAmt = b.originalBillAmt ∧ (g b).dueDate = b.dueDate
      ∧ (g b).days = b.days) :
    ∀ l : List BillDetail, billsAligned l (l.map g)
  | [] => List.Forall₂.nil
  | b :: rest => List.Forall₂.cons (hg b) (billsAligned_map g hg rest)

theorem statusChangeBill_frame (billNo : String) (st : Option BillStatus)
    (b : BillDetail) :
    (statusChangeBill billNo st b).billNo = b.billNo
      ∧ (statusChangeBill billNo st b).billDate = b.billDate
      ∧ (statusChangeBill billNo st b).originalBillAmt = b.originalBillAmt
      ∧ (statusChangeBill billNo st b).dueDate = b.dueDate
      ∧ (statusChangeBill billNo st b).days = b.days := by
  unfold statusChangeBill
  by_cases h : b.billNo = billNo <;> simp [h]

theorem partialBill_frame (billNo : String) (A : ℚ) (b : BillDetail) :
    ((if b.billNo ≠ billNo then b else applyPartialToBill A b)).billNo = b.billNo
      ∧ ((if b.billNo ≠ billNo then b else applyPartialToBill A b)).billDate = b.billDate
      ∧ ((if b.billNo ≠ billNo then b else applyPartialToBill A b)).originalBillAmt
          = b.originalBillAmt
      ∧ ((if b.billNo ≠ billNo then b else applyPartialToBill A b)).dueDate = b.dueDate
      ∧ ((if b.billNo ≠ billNo then b else applyPartialToBill A b)).days = b.days := by
  by_cases h : b.billNo ≠ billNo
  · simp [h]
  · rw [if_neg h]
    unfold applyPartialToBill
    by_cases hc : b.billAmt - A ≤ 0 <;> simp [hc]

theorem undoBill_frame (billNo : String) (b : BillDetail) :
    ((if b.billNo ≠ billNo then b else undoPartialOnBill b)).billNo = b.billNo
      ∧ ((if b.billNo ≠ billNo then b else undoPartialOnBill b)).billDate = b.billDate
      ∧ ((if b.billNo ≠ billNo then b else undoPartialOnBill b)).originalBillAmt
          = b.originalBillAmt
      ∧ ((if b.billNo ≠ billNo then b else undoPartialOnBill b)).dueDate = b.dueDate
      ∧ ((if b.billNo ≠ billNo then b else undoPartialOnBill b)).days = b.days := by
  by_cases h : b.billNo ≠ billNo
  · simp [h]
  · rw [if_neg h]
    unfold undoPartialOnBill
    by_cases hc : b.manualAdjustment.getD 0 = 0 <;> simp [hc]

/-- C10: every session mutation (status change, partial payment, undo of
partial payment — each applied over the data set as `data.map` of the
per-party function) leaves non-matching parties untouched, and on the
matched party keeps `balanceCredit`, recomputes `balanceDebit` as the sum
of `billAmt` over bills whose status is neither `paid` nor `dispute`,
sets `rawBalance = balanceDebit - balanceCredit`, and only rewrites the
session fields of bills in place (no FIFO re-allocation). -/
theorem sessionMutations_post (partyId billNo : String) (newStatus : Option BillStatus)
    (A : ℚ) (p : ProcessedParty) :
    (p.id ≠ partyId →
      statusChangeParty partyId billNo newStatus p = p
        ∧ partialPaymentParty partyId billNo A p = p
        ∧ undoPartialParty partyId billNo p = p)
    ∧ (p.id = partyId →
      sessionPost p (statusChangeParty partyId billNo newStatus p)
        ∧ sessionPost p (partialPaymentParty partyId billNo A p)
        ∧ sessionPost p (undoPartialParty partyId billNo p)) := by
  constructor
  · intro h
    exact ⟨if_pos h, if_pos h, if_pos h⟩
  · intro h
    have hcond : ¬ p.id ≠ partyId := not_not_intro h
    refine ⟨?_, ?_, ?_⟩
    · unfold statusChangeParty
      rw [if_neg hcond]
      exact ⟨rfl, rfl, rfl, billsAligned_map _ (statusChangeBill_frame billNo newStatus) p.bills⟩
    · unfold partialPaymentParty
      rw [if_neg hcond]
      exact ⟨rfl, rfl, rfl, billsAligned_map _ (partialBill_frame billNo A) p.bills⟩
    · unfold undoPartialParty
      rw [if_neg hcond]
      exact ⟨rfl, rfl, rfl, billsAligned_map _ (undoBill_frame billNo) p.bills⟩

/-- Closed instance of `sessionMutations_post`: the matched-party
post-state for a partial payment, and the frame on a non-matching id. -/
theorem sessionMutations_post_witness :
    sessionPost partyC10 (partialPaymentParty "p1" "B1" 4 partyC10)
      ∧ statusChangeParty "other" "B1" (some BillStatus.paid) partyC10 = partyC10 :=
  ⟨((sessionMutations_post "p1" "B1" (some BillStatus.paid) 4 partyC10).2 rfl).2.1,
   ((sessionMutations_post "other" "B1" (some BillStatus.paid) 4 partyC10).1
      (by decide)).1⟩

end OPC

